import Mathlib

/-!
# The PGM-index tuner driver (`tuner/tuner.cpp`)

A shallow embedding of `main` of `tuner.cpp`.  The driver parses the command
line, loads and sorts the dataset, derives the initial epsilon bracket and
hands everything to one of the two tuning operations of `tuner.hpp`.

`main` is stateful: it writes to the standard streams, calls the loader, sorts
and calls the engine.  The embedding makes this explicit: a run of `main` is
the list of the effects it performs, in program order, together with the exit
status.  What `main` cannot decide by itself is an input of the model:

* the outcome of `ArgumentParser::ParseCLI` (`args.hxx`),
* what `read_data_binary` / `read_data_csv` return for a path (`tuner.hpp`),
* the value of `cache_line_size()` (`tuner.hpp`).

Neither `args.hxx` nor `tuner.hpp` is among the sources.  Where a property
depends on what they do, the parser and the search of the tuning operations
are modelled from the specification, in sections of their own.

`size_t` values are natural numbers, with the wrap-around at `2 ^ 64` written
out where `main` does arithmetic on them.  The `double` tolerance is a rational
number: `main` only passes it on, so no rounding takes place in the driver.
-/

namespace Tuner

/-! ## Data model -/

/-- The flags of `main` after a successful `ParseCLI`.  A value flag is
`some v` when it was matched with value `v` and `none` when it was not, so
`Matched()` is `isSome` and `Get()` is `getD` of the default value of the flag
(`size_t()`, that is `0`, for `time` and `space`; `0.01` for `tol`). -/
structure Flags where
  time : Option Nat
  space : Option Nat
  tol : Option ℚ
  verbose : Bool
  bin : Bool
  csv : Bool
  file : Option String
deriving DecidableEq

/-- The three ways `p.ParseCLI(argc, argv)` can end in `main` (lines 38-48):
it throws `args::Help`, it throws an `args::Error`, or it returns. -/
inductive ParseOutcome where
  | help
  | error
  | ok (f : Flags)
deriving DecidableEq

/-- What a loader call does: it throws `std::ios_base::failure` (with the text
of `what()`), or it returns the integers of the file. -/
inductive LoadResult where
  | failure (what : String)
  | loaded (data : List Int)
deriving DecidableEq

/-- The surroundings of one run: the two loaders of `tuner.hpp` as functions of
the path, and the value `cache_line_size()` returns. -/
structure Env where
  read_data_binary : String → LoadResult
  read_data_csv : String → LoadResult
  cache_line_size : Nat

/-- The two tuning operations `main` can call (lines 75 and 77). -/
inductive Operation where
  | minimize_space_given_time
  | minimize_time_given_space
deriving DecidableEq

/-- One call of a tuning operation with its six arguments, in the order of the
call: target, tolerance, data, lower epsilon, upper epsilon, verbosity. -/
structure EngineCall where
  op : Operation
  target : Nat
  tolerance : ℚ
  data : List Int
  lo_eps : Nat
  hi_eps : Nat
  verbose : Bool
deriving DecidableEq

/-- The effects of `main`, one constructor per statement with an effect.  The
two `print_max_*` lines carry the operands their `printf` arguments are
computed from. -/
inductive Event where
  | usage_out
  | usage_err
  | read_data_binary (file : String)
  | read_data_csv (file : String)
  | err_what (what : String)
  | err_strerror
  | sort
  | print_dataset (n : Nat)
  | print_max_time (t : Nat) (tol : ℚ)
  | print_max_space (kib : Nat) (s : Nat) (tol : ℚ)
  | print_rule
  | print_header
  | engine (c : EngineCall)
deriving DecidableEq

/-- A run of `main`: its effects in program order and its exit status. -/
structure Run where
  events : List Event
  status : Nat
deriving DecidableEq

/-! ## The driver -/

/-- The default of the `tol` flag, the literal `0.01` of line 30. -/
def tolDefault : ℚ := 1 / 100

/-- `time.Get()`. -/
def Flags.timeGet (f : Flags) : Nat := f.time.getD 0

/-- `space.Get()`. -/
def Flags.spaceGet (f : Flags) : Nat := f.space.getD 0

/-- `tol.Get()`. -/
def Flags.tolGet (f : Flags) : ℚ := f.tol.getD tolDefault

/-- `file.Get()`. -/
def Flags.fileGet (f : Flags) : String := f.file.getD ""

/-- `std::sort(data.begin(), data.end())` on 64-bit integers: the ascending
rearrangement of the vector. -/
def sort (data : List Int) : List Int := List.insertionSort (fun a b => a ≤ b) data

/-- Line 52: `bin.Get() ? read_data_binary(file.Get()) : read_data_csv(file.Get())`. -/
def load (env : Env) (f : Flags) : LoadResult :=
  if f.bin then env.read_data_binary f.fileGet else env.read_data_csv f.fileGet

/-- The loader call of line 52 as an effect. -/
def loadEvent (f : Flags) : Event :=
  if f.bin then Event.read_data_binary f.fileGet else Event.read_data_csv f.fileGet

/-- Line 60: `2 * cache_line_size() / sizeof(int64_t)` in `size_t` arithmetic. -/
def lo_eps (env : Env) : Nat := 2 * env.cache_line_size % 2 ^ 64 / 8

/-- Line 61: `data.size() / 2`. -/
def hi_eps (data : List Int) : Nat := data.length / 2

/-- Lines 74-77: the call of the tuning operation. -/
def engineCall (env : Env) (f : Flags) (data : List Int) : EngineCall :=
  if f.time.isSome then
    { op := Operation.minimize_space_given_time, target := f.timeGet, tolerance := f.tolGet,
      data := data, lo_eps := lo_eps env, hi_eps := hi_eps data, verbose := f.verbose }
  else
    { op := Operation.minimize_time_given_space, target := f.spaceGet, tolerance := f.tolGet,
      data := data, lo_eps := lo_eps env, hi_eps := hi_eps data, verbose := f.verbose }

/-- Lines 65-68: the line that states the constraint. -/
def constraintLine (f : Flags) : Event :=
  if f.time.isSome then Event.print_max_time f.timeGet f.tolGet
  else Event.print_max_space (f.spaceGet / 2 ^ 10) f.spaceGet f.tolGet

/-- The function `main` of `tuner.cpp`, lines 38-78, as a function of the
outcome of `ParseCLI`.  The status after the engine call is the `0` of a
`main` that runs off its end. -/
def main (env : Env) : ParseOutcome → Run
  | ParseOutcome.help => { events := [Event.usage_out], status := 0 }
  | ParseOutcome.error => { events := [Event.usage_err], status := 1 }
  | ParseOutcome.ok f =>
    match load env f with
    | LoadResult.failure what =>
      { events := [loadEvent f, Event.err_what what, Event.err_strerror], status := 1 }
    | LoadResult.loaded raw =>
      let data := sort raw
      { events := [loadEvent f, Event.sort, Event.print_dataset data.length, constraintLine f,
                   Event.print_rule, Event.print_header, Event.print_rule,
                   Event.engine (engineCall env f data)],
        status := 0 }

/-- The engine calls of a run, in order. -/
def engineCalls (r : Run) : List EngineCall :=
  r.events.filterMap fun e => match e with
    | Event.engine c => some c
    | _ => none

/-- The loader calls of a run, in order. -/
def loaderCalls (r : Run) : List Event :=
  r.events.filter fun e => match e with
    | Event.read_data_binary _ => true
    | Event.read_data_csv _ => true
    | _ => false

/-! ## The command-line parser -/

/-- Modelled from the spec: the argument vector as `ArgumentParser::ParseCLI`
of `args.hxx` (not among the sources) reads it.  Reading stops at the help flag
(`help`), or at a token that is no declared flag or carries a value that cannot
be read (`malformed`), or it reaches the end of the vector (`scanned`), with
the flags that were given and their values. -/
inductive CommandLine where
  | help
  | malformed
  | scanned (f : Flags)
deriving DecidableEq

/-- Modelled from the spec: the check of a `Group` declared with
`args::Group::Validators::Xor` (`args.hxx`, not among the sources): exactly one
of its two members was given. -/
def xorGroup (a b : Bool) : Bool := a != b

/-- Modelled from the spec: the validation `ParseCLI` of `args.hxx` (not among
the sources) runs on the declarations of `main`: the group of operating modes
(line 27) and the group of file types (line 32) are `Xor` groups, and the
positional `file` (line 35) is required.  The spec calls an invalid or missing
required argument a configuration error and lists one operating mode, one
file-type selector and the dataset path as the validated parameters.  No
declaration of `main` bounds the value of a flag. -/
def validate (f : Flags) : Bool :=
  xorGroup f.time.isSome f.space.isSome && xorGroup f.bin f.csv && f.file.isSome

/-- Modelled from the spec: `ArgumentParser::ParseCLI` of `args.hxx` (not among
the sources).  The help flag ends parsing with `args::Help`; a vector that
cannot be read, or whose flags fail the validation, ends it with an
`args::Error`; otherwise the flags reach `main` as given. -/
def ParseCLI : CommandLine → ParseOutcome
  | CommandLine.help => ParseOutcome.help
  | CommandLine.malformed => ParseOutcome.error
  | CommandLine.scanned f => if validate f then ParseOutcome.ok f else ParseOutcome.error

/-! ## The search of the tuning operations -/

/-- Modelled from the spec: where the constrained metric of one evaluated
candidate lies with respect to the acceptance band
`[target * (1 - tol), target * (1 + tol)]`.  The tuning operations live in
`tuner.hpp`, which is not among the sources. -/
inductive Verdict where
  | in_band
  | above
  | below
deriving DecidableEq

/-- Modelled from the spec: the half of the bracket the search of `tuner.hpp`
(not among the sources) keeps after a candidate outside the band.  With a time
budget, a time above the band asks for a smaller epsilon and a time below it
for a larger one; with a space budget the roles are mirrored: space under
budget narrows toward smaller epsilon, over budget toward larger epsilon. -/
def towardSmaller : Operation → Verdict → Bool
  | Operation.minimize_space_given_time, Verdict.above => true
  | Operation.minimize_space_given_time, _ => false
  | Operation.minimize_time_given_space, Verdict.below => true
  | Operation.minimize_time_given_space, _ => false

/-- What a search reports: the epsilon values it evaluated, in order of
evaluation (one Builder/Benchmarker invocation and one progress record each),
and whether the last of them met the constraint. -/
structure SearchReport where
  evaluated : List Nat
  satisfied : Bool
deriving DecidableEq

/-- Modelled from the spec: the bisection loop of `minimize_space_given_time`
and `minimize_time_given_space` (`tuner.hpp`, not among the sources).  Each
step evaluates the midpoint of the bracket `[lo, hi]`; the search ends when the
measured metric enters the acceptance band, or when `lo` and `hi` have
converged; otherwise the bracket is narrowed to `[lo, mid]` or `[mid + 1, hi]`.
`measure k eps` is the verdict of the evaluation of `eps` made after `k`
earlier evaluations, so that measurements may be noisy and need not be
monotone.  The first argument is fuel: `none` means it ran out. -/
def bisect (op : Operation) (measure : Nat → Nat → Verdict) :
    Nat → Nat → Nat → Nat → Option SearchReport
  | 0, _, _, _ => none
  | fuel + 1, k, lo, hi =>
    let mid := lo + (hi - lo) / 2
    let v := measure k mid
    if v = Verdict.in_band then some { evaluated := [mid], satisfied := true }
    else if lo = hi then some { evaluated := [mid], satisfied := false }
    else
      let next :=
        if towardSmaller op v then bisect op measure fuel (k + 1) lo mid
        else bisect op measure fuel (k + 1) (mid + 1) hi
      next.map fun r => { r with evaluated := mid :: r.evaluated }

/-- Modelled from the spec: the search of a tuning operation of `tuner.hpp`
(not among the sources) on a bracket `[lo, hi]` with `lo ≤ hi`, with one unit
of fuel per epsilon of the bracket.  The failures of an operation at entry
come before the search and are not part of it. -/
def search (op : Operation) (measure : Nat → Nat → Verdict) (lo hi : Nat) :
    Option SearchReport :=
  bisect op measure (hi - lo + 1) 0 lo hi

/-! ## Sample inputs -/

/-- A machine with 64-byte cache lines where the binary loader yields three
integers and the csv loader fails. -/
def sampleEnv : Env :=
  { read_data_binary := fun _ => LoadResult.loaded [3, 1, 2],
    read_data_csv := fun _ => LoadResult.failure "cannot open",
    cache_line_size := 64 }

/-- A machine with 8-byte cache lines where both loaders yield four integers. -/
def narrowEnv : Env :=
  { read_data_binary := fun _ => LoadResult.loaded [4, 3, 2, 1],
    read_data_csv := fun _ => LoadResult.loaded [4, 3, 2, 1],
    cache_line_size := 8 }

/-- The flags of `tuner -t 200 -b data.bin`. -/
def timeFlags : Flags :=
  { time := some 200, space := none, tol := none, verbose := false,
    bin := true, csv := false, file := some "data.bin" }

/-- The flags of `tuner -s 4096 -o 1/50 -v -b data.bin`. -/
def spaceFlags : Flags :=
  { time := none, space := some 4096, tol := some (1 / 50), verbose := true,
    bin := true, csv := false, file := some "data.bin" }

/-- The flags of `tuner -t 200 -c data.csv`. -/
def csvFlags : Flags :=
  { time := some 200, space := none, tol := none, verbose := false,
    bin := false, csv := true, file := some "data.csv" }

/-- The flags of `tuner -t 0 -o 5 -b data.bin`. -/
def looseFlags : Flags :=
  { time := some 0, space := none, tol := some 5, verbose := false,
    bin := true, csv := false, file := some "data.bin" }

/-- A measurement that finds every candidate above the band. -/
def alwaysAbove : Nat → Nat → Verdict := fun _ _ => Verdict.above

/-! ## Shape of a run -/

theorem main_loaded (env : Env) (f : Flags) (raw : List Int)
    (h : load env f = LoadResult.loaded raw) :
    main env (ParseOutcome.ok f) =
      { events := [loadEvent f, Event.sort, Event.print_dataset (sort raw).length,
                   constraintLine f, Event.print_rule, Event.print_header, Event.print_rule,
                   Event.engine (engineCall env f (sort raw))],
        status := 0 } := by
  simp [main, h]

theorem main_failure (env : Env) (f : Flags) (what : String)
    (h : load env f = LoadResult.failure what) :
    main env (ParseOutcome.ok f) =
      { events := [loadEvent f, Event.err_what what, Event.err_strerror], status := 1 } := by
  simp [main, h]

theorem engineCalls_loaded (env : Env) (f : Flags) (raw : List Int)
    (h : load env f = LoadResult.loaded raw) :
    engineCalls (main env (ParseOutcome.ok f)) = [engineCall env f (sort raw)] := by
  rw [main_loaded env f raw h]
  cases hb : f.bin <;> cases ht : f.time <;>
    simp [engineCalls, loadEvent, constraintLine, hb, ht]

/-- For an empty dataset `main` has no check of its own: it calls the engine
with the empty data and the bracket `lo_eps`, `0`. -/
theorem engineCalls_empty (env : Env) (f : Flags)
    (h : load env f = LoadResult.loaded []) :
    ∃ c, engineCalls (main env (ParseOutcome.ok f)) = [c] ∧
      c.data = [] ∧ c.lo_eps = lo_eps env ∧ c.hi_eps = 0 := by
  refine ⟨engineCall env f (sort []), engineCalls_loaded env f [] h, ?_, ?_, ?_⟩
  · unfold engineCall; split <;> rfl
  · unfold engineCall; split <;> rfl
  · unfold engineCall; split <;> rfl

theorem engineCalls_failure (env : Env) (f : Flags) (what : String)
    (h : load env f = LoadResult.failure what) :
    engineCalls (main env (ParseOutcome.ok f)) = [] := by
  rw [main_failure env f what h]
  cases hb : f.bin <;> simp [engineCalls, loadEvent, hb]

theorem engine_mem_events (r : Run) (c : EngineCall) :
    Event.engine c ∈ r.events ↔ c ∈ engineCalls r := by
  unfold engineCalls
  rw [List.mem_filterMap]
  constructor
  · intro h
    exact ⟨Event.engine c, h, rfl⟩
  · rintro ⟨e, he, hc⟩
    cases e <;> simp at hc
    subst hc
    exact he

theorem sort_sorted (data : List Int) : (sort data).Sorted (fun a b => a ≤ b) :=
  List.sorted_insertionSort _ data

theorem sort_perm (data : List Int) : (sort data).Perm data :=
  List.perm_insertionSort _ data

theorem sort_length (data : List Int) : (sort data).length = data.length :=
  (sort_perm data).length_eq

theorem lo_eps_of_lt (env : Env) (h : env.cache_line_size < 2 ^ 63) :
    lo_eps env = 2 * env.cache_line_size / 8 := by
  unfold lo_eps
  rw [Nat.mod_eq_of_lt (by omega)]

theorem engineCall_data (env : Env) (f : Flags) (data : List Int) :
    (engineCall env f data).data = data := by
  unfold engineCall; split <;> rfl

theorem engineCall_lo (env : Env) (f : Flags) (data : List Int) :
    (engineCall env f data).lo_eps = lo_eps env := by
  unfold engineCall; split <;> rfl

theorem engineCall_hi (env : Env) (f : Flags) (data : List Int) :
    (engineCall env f data).hi_eps = hi_eps data := by
  unfold engineCall; split <;> rfl

theorem engineCall_tolerance (env : Env) (f : Flags) (data : List Int) :
    (engineCall env f data).tolerance = f.tolGet := by
  unfold engineCall; split <;> rfl

theorem engineCall_verbose (env : Env) (f : Flags) (data : List Int) :
    (engineCall env f data).verbose = f.verbose := by
  unfold engineCall; split <;> rfl

/-! ## The engine call -/

/-- C1: a run of `main` that passes argument parsing (flags `f`) and data
loading (the loader returned `raw`) invokes exactly one engine operation,
exactly once: `minimize_space_given_time` with target `time.Get()` when the
time flag was matched, and otherwise `minimize_time_given_space` with target
`space.Get()`; the tolerance is `tol.Get()`, the verbosity `verbose.Get()`,
and the other arguments are the sorted data, `lo_eps` and `hi_eps`. -/
theorem main_invokes_one_operation (env : Env) (f : Flags) (raw : List Int)
    (hload : load env f = LoadResult.loaded raw) :
    ∃ c, engineCalls (main env (ParseOutcome.ok f)) = [c] ∧
      (f.time.isSome = true →
        c.op = Operation.minimize_space_given_time ∧ c.target = f.time.getD 0) ∧
      (f.time.isSome = false →
        c.op = Operation.minimize_time_given_space ∧ c.target = f.space.getD 0) ∧
      c.tolerance = f.tol.getD tolDefault ∧ c.verbose = f.verbose ∧
      c.data = sort raw ∧ c.lo_eps = lo_eps env ∧ c.hi_eps = hi_eps (sort raw) := by
  refine ⟨engineCall env f (sort raw), engineCalls_loaded env f raw hload, ?_, ?_, ?_⟩
  · intro ht
    simp [engineCall, ht, Flags.timeGet]
  · intro ht
    simp [engineCall, ht, Flags.spaceGet]
  · cases ht : f.time.isSome <;> simp [engineCall, ht, Flags.tolGet]

theorem main_invokes_one_operation_witness :
    load sampleEnv spaceFlags = LoadResult.loaded [3, 1, 2] ∧
    ∃ c, engineCalls (main sampleEnv (ParseOutcome.ok spaceFlags)) = [c] ∧
      (spaceFlags.time.isSome = true →
        c.op = Operation.minimize_space_given_time ∧ c.target = spaceFlags.time.getD 0) ∧
      (spaceFlags.time.isSome = false →
        c.op = Operation.minimize_time_given_space ∧ c.target = spaceFlags.space.getD 0) ∧
      c.tolerance = spaceFlags.tol.getD tolDefault ∧ c.verbose = spaceFlags.verbose ∧
      c.data = sort [3, 1, 2] ∧ c.lo_eps = lo_eps sampleEnv ∧
      c.hi_eps = hi_eps (sort [3, 1, 2]) :=
  ⟨by decide, main_invokes_one_operation sampleEnv spaceFlags [3, 1, 2] (by decide)⟩

/-- C2: for every loaded dataset `raw`, the sequence `main` passes to the
engine operation is sorted in non-decreasing order and is a permutation of
`raw`: same length, and every value occurs as often as in `raw`. -/
theorem main_passes_sorted_permutation (env : Env) (f : Flags) (raw : List Int)
    (hload : load env f = LoadResult.loaded raw) :
    ∃ c, engineCalls (main env (ParseOutcome.ok f)) = [c] ∧
      c.data.Sorted (fun a b => a ≤ b) ∧ c.data.Perm raw ∧
      c.data.length = raw.length ∧ ∀ x, c.data.count x = raw.count x := by
  refine ⟨engineCall env f (sort raw), engineCalls_loaded env f raw hload, ?_, ?_, ?_, ?_⟩
  · rw [engineCall_data]; exact sort_sorted raw
  · rw [engineCall_data]; exact sort_perm raw
  · rw [engineCall_data]; exact sort_length raw
  · intro x
    rw [engineCall_data]
    exact (sort_perm raw).count_eq x

theorem main_passes_sorted_permutation_witness :
    load sampleEnv timeFlags = LoadResult.loaded [3, 1, 2] ∧
    ∃ c, engineCalls (main sampleEnv (ParseOutcome.ok timeFlags)) = [c] ∧
      c.data.Sorted (fun a b => a ≤ b) ∧ c.data.Perm [3, 1, 2] ∧
      c.data.length = [3, 1, 2].length ∧ ∀ x, c.data.count x = [3, 1, 2].count x :=
  ⟨by decide, main_passes_sorted_permutation sampleEnv timeFlags [3, 1, 2] (by decide)⟩

/-- C3: for a dataset of `n = raw.length` entries and a cache-line size of
`C` bytes (a `size_t` whose double does not wrap, `C < 2 ^ 63`), the bracket
`main` passes to the engine is `lo = (2 * C) / 8` and `hi = n / 2`, whatever
the flags (operating mode, target, tolerance) are; `C = 64` gives `lo = 16`
and `n = 1000000` gives `hi = 500000`. -/
theorem main_initial_bracket (env : Env) (f : Flags) (raw : List Int)
    (hC : env.cache_line_size < 2 ^ 63)
    (hload : load env f = LoadResult.loaded raw) :
    ∃ c, engineCalls (main env (ParseOutcome.ok f)) = [c] ∧
      c.lo_eps = 2 * env.cache_line_size / 8 ∧ c.hi_eps = raw.length / 2 ∧
      (env.cache_line_size = 64 → c.lo_eps = 16) ∧
      (raw.length = 1000000 → c.hi_eps = 500000) := by
  have hlo : (engineCall env f (sort raw)).lo_eps = 2 * env.cache_line_size / 8 := by
    rw [engineCall_lo, lo_eps_of_lt env hC]
  have hhi : (engineCall env f (sort raw)).hi_eps = raw.length / 2 := by
    rw [engineCall_hi, hi_eps, sort_length]
  refine ⟨engineCall env f (sort raw), engineCalls_loaded env f raw hload, hlo, hhi, ?_, ?_⟩
  · intro h64
    rw [hlo, h64]
  · intro hn
    rw [hhi, hn]

theorem main_initial_bracket_witness :
    sampleEnv.cache_line_size < 2 ^ 63 ∧
    load sampleEnv timeFlags = LoadResult.loaded [3, 1, 2] ∧
    ∃ c, engineCalls (main sampleEnv (ParseOutcome.ok timeFlags)) = [c] ∧
      c.lo_eps = 2 * sampleEnv.cache_line_size / 8 ∧ c.hi_eps = [3, 1, 2].length / 2 ∧
      (sampleEnv.cache_line_size = 64 → c.lo_eps = 16) ∧
      ([3, 1, 2].length = 1000000 → c.hi_eps = 500000) :=
  ⟨by decide, by decide,
    main_initial_bracket sampleEnv timeFlags [3, 1, 2] (by decide) (by decide)⟩

/-- C4, counterexample: with 64-byte cache lines and a dataset of three
entries `main` invokes the engine with `lo = 16` and `hi = 1`, so the bracket
it passes does not satisfy `lo ≤ hi`. -/
theorem main_bracket_inverted :
    ∃ c, Event.engine c ∈ (main sampleEnv (ParseOutcome.ok timeFlags)).events ∧
      c.lo_eps = 16 ∧ c.hi_eps = 1 ∧
      ¬ (c.lo_eps ≤ c.hi_eps ∧ 1 ≤ c.lo_eps ∧ 1 ≤ c.hi_eps) :=
  ⟨engineCall sampleEnv timeFlags (sort [3, 1, 2]),
    (engine_mem_events _ _).2
      (by
        rw [engineCalls_loaded sampleEnv timeFlags [3, 1, 2] rfl]
        exact List.mem_singleton_self _),
    by decide, by decide, by decide⟩

/-- C4, amended: `main` passes the bracket `lo = (2 * C) / 8`, `hi = n / 2`
to the engine without checking it.  For a dataset of `n` entries and a
cache-line size `C < 2 ^ 63`, the bracket satisfies `lo ≤ hi` exactly when
`(2 * C) / 8 ≤ n / 2`, `lo ≥ 1` exactly when `C ≥ 4`, and `hi ≥ 1` exactly
when `n ≥ 2`. -/
theorem main_bracket_valid_iff (env : Env) (f : Flags) (raw : List Int)
    (hC : env.cache_line_size < 2 ^ 63)
    (hload : load env f = LoadResult.loaded raw) :
    ∃ c, engineCalls (main env (ParseOutcome.ok f)) = [c] ∧
      c.lo_eps = 2 * env.cache_line_size / 8 ∧ c.hi_eps = raw.length / 2 ∧
      (c.lo_eps ≤ c.hi_eps ↔ 2 * env.cache_line_size / 8 ≤ raw.length / 2) ∧
      (1 ≤ c.lo_eps ↔ 4 ≤ env.cache_line_size) ∧
      (1 ≤ c.hi_eps ↔ 2 ≤ raw.length) := by
  have hlo : (engineCall env f (sort raw)).lo_eps = 2 * env.cache_line_size / 8 := by
    rw [engineCall_lo, lo_eps_of_lt env hC]
  have hhi : (engineCall env f (sort raw)).hi_eps = raw.length / 2 := by
    rw [engineCall_hi, hi_eps, sort_length]
  refine ⟨engineCall env f (sort raw), engineCalls_loaded env f raw hload, hlo, hhi,
    ?_, ?_, ?_⟩
  · rw [hlo, hhi]
  · rw [hlo]; omega
  · rw [hhi]; omega

theorem main_bracket_valid_iff_witness :
    narrowEnv.cache_line_size < 2 ^ 63 ∧
    load narrowEnv timeFlags = LoadResult.loaded [4, 3, 2, 1] ∧
    ∃ c, engineCalls (main narrowEnv (ParseOutcome.ok timeFlags)) = [c] ∧
      c.lo_eps = 2 * narrowEnv.cache_line_size / 8 ∧ c.hi_eps = [4, 3, 2, 1].length / 2 ∧
      (c.lo_eps ≤ c.hi_eps ↔ 2 * narrowEnv.cache_line_size / 8 ≤ [4, 3, 2, 1].length / 2) ∧
      (1 ≤ c.lo_eps ↔ 4 ≤ narrowEnv.cache_line_size) ∧
      (1 ≤ c.hi_eps ↔ 2 ≤ [4, 3, 2, 1].length) :=
  ⟨by decide, by decide,
    main_bracket_valid_iff narrowEnv timeFlags [4, 3, 2, 1] (by decide) (by decide)⟩

theorem engine_event_origin (env : Env) (P : ParseOutcome) (c : EngineCall)
    (hc : Event.engine c ∈ (main env P).events) :
    ∃ f raw, P = ParseOutcome.ok f ∧ load env f = LoadResult.loaded raw ∧
      c = engineCall env f (sort raw) := by
  cases P with
  | help => simp [main] at hc
  | error => simp [main] at hc
  | ok f =>
    cases h : load env f with
    | failure what =>
      have h0 := engineCalls_failure env f what h
      rw [engine_mem_events, h0] at hc
      simp at hc
    | loaded raw =>
      have h1 := engineCalls_loaded env f raw h
      rw [engine_mem_events, h1] at hc
      simp at hc
      exact ⟨f, raw, rfl, h, hc⟩

theorem ParseCLI_ok (argv : CommandLine) (f : Flags) (h : ParseCLI argv = ParseOutcome.ok f) :
    argv = CommandLine.scanned f ∧ validate f = true := by
  cases argv with
  | help => simp [ParseCLI] at h
  | malformed => simp [ParseCLI] at h
  | scanned g =>
    by_cases hv : validate g = true
    · simp [ParseCLI, hv] at h
      subst h
      exact ⟨rfl, hv⟩
    · simp [ParseCLI, hv] at h

theorem validate_modes (f : Flags) (h : validate f = true) :
    (∃ v, f.time = some v ∧ f.space = none) ∨
      (∃ v, f.space = some v ∧ f.time = none) := by
  unfold validate xorGroup at h
  cases ht : f.time <;> cases hs : f.space <;> simp [ht, hs] at h ⊢

/-! ## Failures before the engine -/

/-- C5: when the parser rejects the argument vector (`args::Error`), `main`
prints the usage text to the error stream and returns exit status 1, and
nothing else happens: no loader is called, nothing is sorted, no table header
is printed and no engine operation is invoked. -/
theorem main_parse_error (env : Env) :
    (main env ParseOutcome.error).status = 1 ∧
    (main env ParseOutcome.error).events = [Event.usage_err] ∧
    loaderCalls (main env ParseOutcome.error) = [] ∧
    Event.sort ∉ (main env ParseOutcome.error).events ∧
    Event.print_header ∉ (main env ParseOutcome.error).events ∧
    engineCalls (main env ParseOutcome.error) = [] := by
  simp [main, loaderCalls, engineCalls]

/-- C6: when the loader fails with `std::ios_base::failure`, the run ends
with exit status 1 and no engine operation is invoked; and in any run, an
engine operation is invoked only after the loader call, which returned a
dataset, and on that dataset sorted. -/
theorem main_loader_failure (env : Env) :
    (∀ f what, load env f = LoadResult.failure what →
      (main env (ParseOutcome.ok f)).status = 1 ∧
      engineCalls (main env (ParseOutcome.ok f)) = []) ∧
    (∀ P c, Event.engine c ∈ (main env P).events →
      ∃ f raw mid, P = ParseOutcome.ok f ∧ load env f = LoadResult.loaded raw ∧
        c.data = sort raw ∧ (main env P).events = loadEvent f :: (mid ++ [Event.engine c])) := by
  constructor
  · intro f what h
    exact ⟨by rw [main_failure env f what h], engineCalls_failure env f what h⟩
  · intro P c hc
    obtain ⟨f, raw, hP, hl, hcall⟩ := engine_event_origin env P c hc
    subst hP hcall
    refine ⟨f, raw, [Event.sort, Event.print_dataset (sort raw).length, constraintLine f,
      Event.print_rule, Event.print_header, Event.print_rule], rfl, hl, ?_, ?_⟩
    · exact engineCall_data env f (sort raw)
    · rw [main_loaded env f raw hl]; rfl

theorem main_loader_failure_witness :
    load sampleEnv csvFlags = LoadResult.failure "cannot open" ∧
    (main sampleEnv (ParseOutcome.ok csvFlags)).status = 1 ∧
    engineCalls (main sampleEnv (ParseOutcome.ok csvFlags)) = [] ∧
    Event.engine (engineCall sampleEnv timeFlags (sort [3, 1, 2])) ∈
      (main sampleEnv (ParseOutcome.ok timeFlags)).events ∧
    ∃ f raw mid, ParseOutcome.ok timeFlags = ParseOutcome.ok f ∧
      load sampleEnv f = LoadResult.loaded raw ∧
      (engineCall sampleEnv timeFlags (sort [3, 1, 2])).data = sort raw ∧
      (main sampleEnv (ParseOutcome.ok timeFlags)).events =
        loadEvent f ::
          (mid ++ [Event.engine (engineCall sampleEnv timeFlags (sort [3, 1, 2]))]) :=
  have hmem : Event.engine (engineCall sampleEnv timeFlags (sort [3, 1, 2])) ∈
      (main sampleEnv (ParseOutcome.ok timeFlags)).events :=
    (engine_mem_events _ _).2
      (by
        rw [engineCalls_loaded sampleEnv timeFlags [3, 1, 2] rfl]
        exact List.mem_singleton_self _)
  ⟨by decide,
    ((main_loader_failure sampleEnv).1 csvFlags "cannot open" (by decide)).1,
    ((main_loader_failure sampleEnv).1 csvFlags "cannot open" (by decide)).2,
    hmem,
    (main_loader_failure sampleEnv).2 (ParseOutcome.ok timeFlags)
      (engineCall sampleEnv timeFlags (sort [3, 1, 2])) hmem⟩

/-! ## What the parser lets through -/

/-- C7: a run reaches the engine only if exactly one of the two
operating-mode flags (`-t` or `--time`, `-s` or `--space`) was given; a command line
that gives neither or both ends as a configuration error (usage text on the
error stream, exit status 1, nothing else).  Hence, whenever the else branch
calling `minimize_time_given_space` runs, the space flag was matched and the
target passed is the value the user gave with it. -/
theorem main_requires_one_mode (env : Env) :
    (∀ argv c, Event.engine c ∈ (main env (ParseCLI argv)).events →
      ∃ f, argv = CommandLine.scanned f ∧
        ((f.time.isSome = true ∧ f.space.isSome = false) ∨
          (f.time.isSome = false ∧ f.space.isSome = true)) ∧
        (c.op = Operation.minimize_time_given_space →
          ∃ v, f.space = some v ∧ c.target = v)) ∧
    (∀ f, f.time.isSome = f.space.isSome →
      main env (ParseCLI (CommandLine.scanned f)) =
        { events := [Event.usage_err], status := 1 }) := by
  constructor
  · intro argv c hc
    obtain ⟨f, raw, hP, _, hcall⟩ := engine_event_origin env _ c hc
    obtain ⟨hargv, hv⟩ := ParseCLI_ok argv f hP
    refine ⟨f, hargv, ?_, ?_⟩
    · rcases validate_modes f hv with ⟨v, ht, hs⟩ | ⟨v, hs, ht⟩
      · left; simp [ht, hs]
      · right; simp [ht, hs]
    · intro hop
      rcases validate_modes f hv with ⟨v, ht, hs⟩ | ⟨v, hs, ht⟩
      · rw [hcall] at hop
        simp [engineCall, ht] at hop
      · refine ⟨v, hs, ?_⟩
        rw [hcall]
        simp [engineCall, ht, hs, Flags.spaceGet]
  · intro f h
    have hv : validate f = false := by
      unfold validate xorGroup
      rw [h]
      simp
    simp [ParseCLI, hv, main]

theorem main_requires_one_mode_witness :
    Event.engine (engineCall sampleEnv spaceFlags (sort [3, 1, 2])) ∈
      (main sampleEnv (ParseCLI (CommandLine.scanned spaceFlags))).events ∧
    (∃ f, CommandLine.scanned spaceFlags = CommandLine.scanned f ∧
      ((f.time.isSome = true ∧ f.space.isSome = false) ∨
        (f.time.isSome = false ∧ f.space.isSome = true)) ∧
      ((engineCall sampleEnv spaceFlags (sort [3, 1, 2])).op =
          Operation.minimize_time_given_space →
        ∃ v, f.space = some v ∧
          (engineCall sampleEnv spaceFlags (sort [3, 1, 2])).target = v)) ∧
    ({ spaceFlags with time := some 200 } : Flags).time.isSome =
      ({ spaceFlags with time := some 200 } : Flags).space.isSome ∧
    main sampleEnv (ParseCLI (CommandLine.scanned { spaceFlags with time := some 200 })) =
      { events := [Event.usage_err], status := 1 } :=
  have hmem : Event.engine (engineCall sampleEnv spaceFlags (sort [3, 1, 2])) ∈
      (main sampleEnv (ParseCLI (CommandLine.scanned spaceFlags))).events :=
    (engine_mem_events _ _).2
      (by
        show engineCall sampleEnv spaceFlags (sort [3, 1, 2]) ∈
          engineCalls (main sampleEnv (ParseOutcome.ok spaceFlags))
        rw [engineCalls_loaded sampleEnv spaceFlags [3, 1, 2] rfl]
        exact List.mem_singleton_self _)
  ⟨hmem,
    (main_requires_one_mode sampleEnv).1 (CommandLine.scanned spaceFlags) _ hmem,
    by decide,
    (main_requires_one_mode sampleEnv).2 { spaceFlags with time := some 200 } (by decide)⟩

/-- C8, counterexample: for `tuner -t 0 -o 5 -b data.bin` the parser accepts
the command line and `main` invokes the engine with tolerance `5`, which is
not in `[0, 1]`, and with target `0`, which is not greater than `0`. -/
theorem main_passes_unchecked_values :
    ∃ c, Event.engine c ∈
        (main sampleEnv (ParseCLI (CommandLine.scanned looseFlags))).events ∧
      c.tolerance = 5 ∧ c.target = 0 ∧
      ¬ (0 ≤ c.tolerance ∧ c.tolerance ≤ 1) ∧ ¬ 0 < c.target := by
  refine ⟨engineCall sampleEnv looseFlags (sort [3, 1, 2]), ?_, rfl, rfl, ?_, ?_⟩
  · rw [engine_mem_events]
    show engineCall sampleEnv looseFlags (sort [3, 1, 2]) ∈
      engineCalls (main sampleEnv (ParseOutcome.ok looseFlags))
    rw [engineCalls_loaded sampleEnv looseFlags [3, 1, 2] rfl]
    exact List.mem_singleton_self _
  · have h : (engineCall sampleEnv looseFlags (sort [3, 1, 2])).tolerance = 5 := rfl
    rw [h]
    norm_num
  · have h : (engineCall sampleEnv looseFlags (sort [3, 1, 2])).target = 0 := rfl
    rw [h]
    exact Nat.lt_irrefl 0

/-- C8, amended: the parameters `main` hands to the engine are the parsed
ones, not checked against a range.  In every run in which an engine operation
is invoked, the tolerance passed is the value given with `--tol`, whatever it
is, and `0.01` (which lies in `[0, 1]`) when the flag is absent; the target
passed is the value given with the one operating-mode flag that was matched. -/
theorem main_passes_parsed_values (env : Env) (argv : CommandLine) (c : EngineCall)
    (hc : Event.engine c ∈ (main env (ParseCLI argv)).events) :
    ∃ f, argv = CommandLine.scanned f ∧
      (∀ t, f.tol = some t → c.tolerance = t) ∧
      (f.tol = none → c.tolerance = 1 / 100 ∧ 0 ≤ c.tolerance ∧ c.tolerance ≤ 1) ∧
      ((∃ v, f.time = some v ∧ f.space = none ∧
          c.op = Operation.minimize_space_given_time ∧ c.target = v) ∨
        (∃ v, f.space = some v ∧ f.time = none ∧
          c.op = Operation.minimize_time_given_space ∧ c.target = v)) := by
  obtain ⟨f, raw, hP, _, hcall⟩ := engine_event_origin env _ c hc
  obtain ⟨hargv, hv⟩ := ParseCLI_ok argv f hP
  have htol : c.tolerance = f.tolGet := by rw [hcall, engineCall_tolerance]
  refine ⟨f, hargv, ?_, ?_, ?_⟩
  · intro t ht
    rw [htol]
    simp [Flags.tolGet, ht]
  · intro ht
    have h100 : c.tolerance = 1 / 100 := by
      rw [htol]
      simp [Flags.tolGet, ht, tolDefault]
    refine ⟨h100, ?_, ?_⟩ <;> rw [h100] <;> norm_num
  · rcases validate_modes f hv with ⟨v, ht, hs⟩ | ⟨v, hs, ht⟩
    · left
      refine ⟨v, ht, hs, ?_, ?_⟩ <;> rw [hcall] <;> simp [engineCall, ht, Flags.timeGet]
    · right
      refine ⟨v, hs, ht, ?_, ?_⟩ <;> rw [hcall] <;> simp [engineCall, ht, hs, Flags.spaceGet]

theorem main_passes_parsed_values_witness :
    Event.engine (engineCall sampleEnv timeFlags (sort [3, 1, 2])) ∈
      (main sampleEnv (ParseCLI (CommandLine.scanned timeFlags))).events ∧
    ∃ f, CommandLine.scanned timeFlags = CommandLine.scanned f ∧
      (∀ t, f.tol = some t →
        (engineCall sampleEnv timeFlags (sort [3, 1, 2])).tolerance = t) ∧
      (f.tol = none → (engineCall sampleEnv timeFlags (sort [3, 1, 2])).tolerance = 1 / 100 ∧
        0 ≤ (engineCall sampleEnv timeFlags (sort [3, 1, 2])).tolerance ∧
        (engineCall sampleEnv timeFlags (sort [3, 1, 2])).tolerance ≤ 1) ∧
      ((∃ v, f.time = some v ∧ f.space = none ∧
          (engineCall sampleEnv timeFlags (sort [3, 1, 2])).op =
            Operation.minimize_space_given_time ∧
          (engineCall sampleEnv timeFlags (sort [3, 1, 2])).target = v) ∨
        (∃ v, f.space = some v ∧ f.time = none ∧
          (engineCall sampleEnv timeFlags (sort [3, 1, 2])).op =
            Operation.minimize_time_given_space ∧
          (engineCall sampleEnv timeFlags (sort [3, 1, 2])).target = v)) :=
  have hmem : Event.engine (engineCall sampleEnv timeFlags (sort [3, 1, 2])) ∈
      (main sampleEnv (ParseCLI (CommandLine.scanned timeFlags))).events :=
    (engine_mem_events _ _).2
      (by
        show engineCall sampleEnv timeFlags (sort [3, 1, 2]) ∈
          engineCalls (main sampleEnv (ParseOutcome.ok timeFlags))
        rw [engineCalls_loaded sampleEnv timeFlags [3, 1, 2] rfl]
        exact List.mem_singleton_self _)
  ⟨hmem, main_passes_parsed_values sampleEnv (CommandLine.scanned timeFlags) _ hmem⟩

/-! ## Termination of the search -/

theorem clog_half_succ (d : Nat) (hd : 1 ≤ d) :
    Nat.clog 2 (d / 2 + 1) + 1 = Nat.clog 2 (d + 1) := by
  rw [Nat.clog_of_two_le (by decide) (by omega : 2 ≤ d + 1)]
  have h : (d + 1 + 2 - 1) / 2 = d / 2 + 1 := by omega
  rw [h]

theorem bisect_bound (op : Operation) (measure : Nat → Nat → Verdict) :
    ∀ fuel k lo hi, lo ≤ hi → hi - lo + 1 ≤ fuel →
      ∃ r, bisect op measure fuel k lo hi = some r ∧
        1 ≤ r.evaluated.length ∧
        r.evaluated.length ≤ Nat.clog 2 (hi - lo + 1) + 1 ∧
        (lo = hi → r.evaluated.length = 1) := by
  intro fuel
  induction fuel with
  | zero =>
    intro k lo hi _ hf
    omega
  | succ fuel ih =>
    intro k lo hi hle hf
    unfold bisect
    simp only []
    by_cases hv : measure k (lo + (hi - lo) / 2) = Verdict.in_band
    · rw [if_pos hv]
      exact ⟨_, rfl, by simp, by simp, by simp⟩
    · rw [if_neg hv]
      by_cases heq : lo = hi
      · rw [if_pos heq]
        exact ⟨_, rfl, by simp, by simp, by simp⟩
      · rw [if_neg heq]
        have hlt : lo < hi := lt_of_le_of_ne hle heq
        have hd : 1 ≤ hi - lo := by omega
        have hhalf : (hi - lo) / 2 < hi - lo := Nat.div_lt_self (by omega) (by decide)
        by_cases hs : towardSmaller op (measure k (lo + (hi - lo) / 2)) = true
        · rw [if_pos hs]
          obtain ⟨r, hr, h1, hb, _⟩ :=
            ih (k + 1) lo (lo + (hi - lo) / 2) (by omega) (by omega)
          rw [hr]
          refine ⟨_, rfl, by simp, ?_, fun h => absurd h heq⟩
          have hw : lo + (hi - lo) / 2 - lo + 1 = (hi - lo) / 2 + 1 := by omega
          rw [hw] at hb
          have := clog_half_succ (hi - lo) hd
          simp only [List.length_cons]
          omega
        · rw [if_neg hs]
          obtain ⟨r, hr, h1, hb, _⟩ :=
            ih (k + 1) (lo + (hi - lo) / 2 + 1) hi (by omega) (by omega)
          rw [hr]
          refine ⟨_, rfl, by simp, ?_, fun h => absurd h heq⟩
          have hm : Nat.clog 2 (hi - (lo + (hi - lo) / 2 + 1) + 1) ≤
              Nat.clog 2 ((hi - lo) / 2 + 1) :=
            Nat.clog_mono_right 2 (by omega)
          have := clog_half_succ (hi - lo) hd
          simp only [List.length_cons]
          omega

/-- C10: for every bracket `[lo, hi]` with `lo ≤ hi`, the search of
`minimize_space_given_time` and of `minimize_time_given_space` terminates (its
fuel, one unit per epsilon of the bracket, does not run out) after at least
one and at most `⌈log2 (hi - lo + 1)⌉ + 1` candidate evaluations, whatever the
measurements return; with `lo = hi` it makes exactly one evaluation. -/
theorem search_terminates_within_bound (op : Operation) (measure : Nat → Nat → Verdict)
    (lo hi : Nat) (hle : lo ≤ hi) :
    ∃ r, search op measure lo hi = some r ∧
      1 ≤ r.evaluated.length ∧
      r.evaluated.length ≤ Nat.clog 2 (hi - lo + 1) + 1 ∧
      (lo = hi → r.evaluated.length = 1) :=
  bisect_bound op measure (hi - lo + 1) 0 lo hi hle (le_refl _)

theorem search_terminates_within_bound_witness :
    16 ≤ 19 ∧
    search Operation.minimize_space_given_time alwaysAbove 16 19 =
      some { evaluated := [17, 16, 16], satisfied := false } ∧
    ∃ r, search Operation.minimize_space_given_time alwaysAbove 16 19 = some r ∧
      1 ≤ r.evaluated.length ∧
      r.evaluated.length ≤ Nat.clog 2 (19 - 16 + 1) + 1 ∧
      (16 = 19 → r.evaluated.length = 1) :=
  ⟨by decide, by decide,
    search_terminates_within_bound Operation.minimize_space_given_time alwaysAbove 16 19
      (by decide)⟩

end Tuner
